import Mathlib

/-!
# SQL Server dialect translation layer (`sqlserver.go`)

A shallow embedding of the dialector of `src/sqlserver.go` and proofs about it.

Conventions of the embedding:

* A Go `string` is a Lean `String`.  The only bytes the code inspects are the ASCII
  characters `.` and `"`, so splitting a well-formed UTF-8 string at bytes and at
  characters gives the same segments.
* A Go `int` is a Lean `Int`.  The code only compares these integers with constants and
  prints them; it performs no arithmetic, so no wrap-around can occur.
* A `clause.Writer` is the text written to it so far; every write appends.
* Nullable pointers are `Option`s, Go maps are association lists read by `List.lookup`.
-/

namespace Sqlserver

/-! ## Library functions used by the source -/

/-- Go `strconv.Itoa`: the decimal digits of `i`, preceded by `-` when `i` is negative. -/
def Itoa (i : Int) : String :=
  if i < 0 then "-" ++ Nat.repr i.natAbs else Nat.repr i.toNat

/-- Go `strings.Contains(s, sep)` for a one-character separator. -/
def strings.Contains (s : String) (sep : Char) : Bool :=
  s.data.contains sep

/-- The segments of a character list between the occurrences of `sep`
(the loop of Go `strings.Split` for a one-character separator). -/
def strings.splitChars (sep : Char) : List Char → List (List Char)
  | [] => [[]]
  | c :: cs =>
    if c = sep then [] :: strings.splitChars sep cs
    else
      match strings.splitChars sep cs with
      | [] => [[c]]
      | seg :: rest => (c :: seg) :: rest

/-- Go `strings.Split(s, sep)` for a one-character separator. -/
def strings.Split (s : String) (sep : Char) : List String :=
  (strings.splitChars sep s.data).map String.mk

/-! ## Data model (the parts of `gorm` the source reads) -/

/-- The `clause.Writer` interface: the text written so far. -/
structure clause.Writer where
  written : String
deriving DecidableEq, Repr

/-- Method `WriteByte` of a writer. -/
def clause.Writer.WriteByte (w : clause.Writer) (c : Char) : clause.Writer :=
  { written := w.written ++ String.singleton c }

/-- Method `WriteString` of a writer. -/
def clause.Writer.WriteString (w : clause.Writer) (s : String) : clause.Writer :=
  { written := w.written ++ s }

/-- The type `schema.DataType` is a Go string type. -/
abbrev schema.DataType := String

/-- Constant `schema.Bool` of gorm (named after its type here). -/
def schema.DataType.Bool : schema.DataType := "bool"
/-- Constant `schema.Int` of gorm (named after its type here). -/
def schema.DataType.Int : schema.DataType := "int"
/-- Constant `schema.Uint` of gorm (named after its type here). -/
def schema.DataType.Uint : schema.DataType := "uint"
/-- Constant `schema.Float` of gorm (named after its type here). -/
def schema.DataType.Float : schema.DataType := "float"
/-- Constant `schema.String` of gorm (named after its type here). -/
def schema.DataType.String : schema.DataType := "string"
/-- Constant `schema.Time` of gorm (named after its type here). -/
def schema.DataType.Time : schema.DataType := "time"
/-- Constant `schema.Bytes` of gorm (named after its type here). -/
def schema.DataType.Bytes : schema.DataType := "bytes"

/-- The fields of `schema.Field` that the source reads. -/
structure schema.Field where
  DBName : String
  DataType : schema.DataType
  Size : Int
  AutoIncrement : Bool
  PrimaryKey : Bool
  TagSettings : List (String × String)
deriving DecidableEq, Repr

/-- The fields of `schema.Schema` that the source reads. -/
structure schema.Schema where
  PrioritizedPrimaryField : Option schema.Field
deriving DecidableEq, Repr

set_option linter.dupNamespace false in
/-- The struct `clause.Limit`. -/
structure clause.Limit where
  Limit : Int
  Offset : Int
deriving DecidableEq, Repr

/-- The interface `clause.Expression`: a limit/offset expression, some other
expression (represented by its SQL text), or nil. -/
inductive clause.Expression where
  | Limit (limit : clause.Limit)
  | Expr (SQL : String)
  | nil
deriving DecidableEq, Repr

/-- The fields of `clause.Clause` that the source reads. -/
structure clause.Clause where
  Name : String
  Expression : clause.Expression
deriving DecidableEq, Repr

/-- The fields of `gorm.Statement` that the source reads or writes.  `Quote` is the text
that `WriteQuoted` appends for a column name: gorm hands the name to the `QuoteTo`
of the dialector the statement is bound to.  `Vars` holds the values bound so far (by
their text); the source names it only in a comment of `BindVarTo`. -/
structure gorm.Statement where
  SQL : clause.Writer
  Clauses : List (String × clause.Clause)
  Schema : Option schema.Schema
  Quote : String → String
  Vars : List String

/-- Method `WriteString` of a statement: it writes to the statement's SQL buffer. -/
def gorm.Statement.WriteString (stmt : gorm.Statement) (s : String) : gorm.Statement :=
  { stmt with SQL := stmt.SQL.WriteString s }

/-- Method `WriteByte` of a statement. -/
def gorm.Statement.WriteByte (stmt : gorm.Statement) (c : Char) : gorm.Statement :=
  { stmt with SQL := stmt.SQL.WriteByte c }

/-- Method `WriteQuoted` of a statement, for a column name. -/
def gorm.Statement.WriteQuoted (stmt : gorm.Statement) (name : String) : gorm.Statement :=
  { stmt with SQL := stmt.SQL.WriteString (stmt.Quote name) }

/-- The interface `clause.Builder`: a `*gorm.Statement`, or another implementation,
of which only the written text is kept. -/
inductive clause.Builder where
  | Statement (stmt : gorm.Statement)
  | Other (w : clause.Writer)

/-- Method `WriteString` of a builder. -/
def clause.Builder.WriteString (b : clause.Builder) (s : String) : clause.Builder :=
  match b with
  | .Statement stmt => .Statement (stmt.WriteString s)
  | .Other w => .Other (w.WriteString s)

/-- The text a builder holds. -/
def clause.Builder.written (b : clause.Builder) : String :=
  match b with
  | .Statement stmt => stmt.SQL.written
  | .Other w => w.written

/-- The part of `*gorm.DB` that `Exec` touches: the statements handed to the execution
layer so far (oldest first), the error the execution layer reports for a statement
(`none` for success), and the `Error` field. -/
structure gorm.DB where
  Executed : List String
  ConnPool : String → Option String
  Error : Option String

/-- Method `Exec` of `*gorm.DB`: the statement goes to the execution layer and the
returned handle carries the error the execution reported.  On a transaction handle gorm
runs `Exec` on an instance of its own, so the receiver's `Error` field is not written;
the error is in the returned handle only. -/
def gorm.DB.Exec (tx : gorm.DB) (sql : String) : gorm.DB :=
  { tx with Executed := tx.Executed ++ [sql], Error := tx.ConnPool sql }

/-! ## The dialector -/

/-- The test `_, ok := stmt.Clauses[name]` on the clause map of a statement. -/
def gorm.Statement.hasClause (stmt : gorm.Statement) (name : String) : Bool :=
  (stmt.Clauses.lookup name).isSome

/-- The field `stmt.Schema.PrioritizedPrimaryField` when both pointers are non-nil,
that is when `stmt.Schema != nil && stmt.Schema.PrioritizedPrimaryField != nil`. -/
def gorm.Statement.prioritizedPrimaryField (stmt : gorm.Statement) : Option schema.Field :=
  match stmt.Schema with
  | some sch => sch.PrioritizedPrimaryField
  | none => none

/-- The `"LIMIT"` entry of `Dialector.ClauseBuilders` (lines 46-75): the builder after
the call. -/
def LIMIT (c : clause.Clause) (builder : clause.Builder) : clause.Builder :=
  match c.Expression with
  | .Limit limit =>
    let builder : clause.Builder :=
      match builder with
      | .Statement stmt =>
        if !stmt.hasClause "ORDER BY" then
          match stmt.prioritizedPrimaryField with
          | some pk =>
            .Statement (((stmt.WriteString "ORDER BY ").WriteQuoted pk.DBName).WriteByte ' ')
          | none => .Statement (stmt.WriteString "ORDER BY (SELECT NULL) ")
        else .Statement stmt
      | .Other w => .Other w
    let builder : clause.Builder :=
      if limit.Offset > 0 then
        ((builder.WriteString "OFFSET ").WriteString (Itoa limit.Offset)).WriteString " ROWS"
      else builder
    if limit.Limit > 0 then
      let builder : clause.Builder :=
        if limit.Offset = 0 then builder.WriteString "OFFSET 0 ROW" else builder
      ((builder.WriteString " FETCH NEXT ").WriteString (Itoa limit.Limit)).WriteString
        " ROWS ONLY"
    else builder
  | _ => builder

/-- The body of the `range` loop of `QuoteTo` (lines 99-105), run over the segments
that remain, `idx` being the index of the first of them. -/
def QuoteTo.loop (writer : clause.Writer) (idx : Nat) : List String → clause.Writer
  | [] => writer
  | str :: rest =>
    let writer := if idx > 0 then writer.WriteString ".\"" else writer
    let writer := writer.WriteString str
    let writer := writer.WriteByte '"'
    QuoteTo.loop writer (idx + 1) rest

/-- Method `Dialector.QuoteTo` (lines 96-110). -/
def QuoteTo (writer : clause.Writer) (str : String) : clause.Writer :=
  let writer := writer.WriteByte '"'
  if strings.Contains str '.' then
    QuoteTo.loop writer 0 (strings.Split str '.')
  else
    (writer.WriteString str).WriteByte '"'

/-- Indexing a Go `map[string]string`: the zero value `""` for a missing key. -/
def mapIndex (m : List (String × String)) (key : String) : String :=
  (m.lookup key).getD ""

/-- Method `Dialector.DataTypeOf` (lines 118-156). -/
def DataTypeOf (field : schema.Field) : String :=
  if field.DataType = schema.DataType.Bool then "bit"
  else if field.DataType = schema.DataType.Int ∨ field.DataType = schema.DataType.Uint then
    let sqlType : String :=
      if field.Size < 16 then "smallint"
      else if field.Size < 31 then "int"
      else "bigint"
    if field.AutoIncrement then sqlType ++ " IDENTITY(1,1)" else sqlType
  else if field.DataType = schema.DataType.Float then "float"
  else if field.DataType = schema.DataType.String then
    let size := field.Size
    let hasIndex : Bool :=
      mapIndex field.TagSettings "INDEX" != "" || mapIndex field.TagSettings "UNIQUE" != ""
    let size := if (field.PrimaryKey || hasIndex) && size == 0 then 256 else size
    if size > 0 ∧ size ≤ 4000 then "nvarchar(" ++ Itoa size ++ ")" else "nvarchar(MAX)"
  else if field.DataType = schema.DataType.Time then "datetimeoffset"
  else if field.DataType = schema.DataType.Bytes then "varbinary(MAX)"
  else field.DataType

/-- Method `Dialector.SavePoint` (lines 158-161): the handle `tx` after the call and the
returned `error` (`none` is Go `nil`).  The handle that `Exec` returns is dropped by the
source; the statement it handed to the execution layer stays executed. -/
def SavePoint (tx : gorm.DB) (name : String) : gorm.DB × Option String :=
  let result := tx.Exec ("SAVE TRANSACTION " ++ name)
  ({ tx with Executed := result.Executed }, none)

/-- Method `Dialector.RollbackTo` (lines 163-166): the handle `tx` after the call and the
returned `error` (`none` is Go `nil`).  The handle that `Exec` returns is dropped by the
source; the statement it handed to the execution layer stays executed. -/
def RollbackTo (tx : gorm.DB) (name : String) : gorm.DB × Option String :=
  let result := tx.Exec ("ROLLBACK TRANSACTION " ++ name)
  ({ tx with Executed := result.Executed }, none)

/-- Method `Dialector.BindVarTo` (lines 91-94). -/
def BindVarTo {α : Type} (writer : clause.Writer) (_stmt : gorm.Statement) (_v : α) :
    clause.Writer :=
  writer.WriteString "?"

/-! ## Concrete inputs used in the examples -/

/-- A column descriptor of the given kind and size with no flag and no tag set. -/
def plainField (kind : schema.DataType) (size : Int) : schema.Field :=
  { DBName := "c", DataType := kind, Size := size, AutoIncrement := false,
    PrimaryKey := false, TagSettings := [] }

/-- A column of the custom kind `json`, of size 7, that is an auto-increment primary key
with an `INDEX` tag. -/
def jsonField : schema.Field :=
  { DBName := "doc", DataType := "json", Size := 7, AutoIncrement := true,
    PrimaryKey := true, TagSettings := [("INDEX", "idx_doc")] }

/-- A transaction handle whose execution layer fails every statement. -/
def failingTx : gorm.DB :=
  { Executed := [], ConnPool := fun _ => some "execution failed", Error := none }

/-- A column `id` that is the primary key of its table. -/
def idField : schema.Field :=
  { DBName := "id", DataType := schema.DataType.Int, Size := 64, AutoIncrement := true,
    PrimaryKey := true, TagSettings := [] }

/-- A statement that has an ORDER BY clause.  Like the next two it is bound to this
dialector: `WriteQuoted` writes what `QuoteTo` writes. -/
def orderedStmt : gorm.Statement :=
  { SQL := { written := "SELECT * FROM t ORDER BY name " },
    Clauses := [("ORDER BY", { Name := "ORDER BY", Expression := .Expr "name" })],
    Schema := some { PrioritizedPrimaryField := some idField },
    Quote := fun s => (QuoteTo { written := "" } s).written,
    Vars := [] }

/-- A statement without ORDER BY clause whose schema has a prioritized primary field. -/
def keyedStmt : gorm.Statement :=
  { SQL := { written := "SELECT * FROM t " },
    Clauses := [],
    Schema := some { PrioritizedPrimaryField := some idField },
    Quote := fun s => (QuoteTo { written := "" } s).written,
    Vars := [] }

/-- A statement without ORDER BY clause and without schema. -/
def bareStmt : gorm.Statement :=
  { SQL := { written := "SELECT * FROM t " },
    Clauses := [],
    Schema := none,
    Quote := fun s => (QuoteTo { written := "" } s).written,
    Vars := [] }

/-- A statement like `bareStmt` to which two values are bound already. -/
def boundStmt : gorm.Statement :=
  { bareStmt with SQL := { written := "SELECT * FROM t WHERE a = ? AND b = " },
                  Vars := ["1", "x"] }

/-- A clause whose expression is not a limit/offset expression. -/
def whereClause : clause.Clause :=
  { Name := "WHERE", Expression := .Expr "a = 1" }

/-- A pagination clause with limit 10 and the negative offset -1. -/
def negativeOffsetClause : clause.Clause :=
  { Name := "LIMIT", Expression := .Limit { Limit := 10, Offset := -1 } }

/-! ## Auxiliary functions of the proofs -/

/-- The characters that `QuoteTo` puts between its opening and its closing quote, read
off the identifier character by character: a dot becomes `"."`, every other character
is itself.  `QuoteTo_data_quoteDots` shows that `QuoteTo` writes just this. -/
def quoteDots : List Char → List Char
  | [] => []
  | c :: cs => if c = '.' then '"' :: '.' :: '"' :: quoteDots cs else c :: quoteDots cs

/-! ## Writing to a builder -/

@[simp] theorem Builder_written_WriteString (b : clause.Builder) (s : String) :
    (b.WriteString s).written = b.written ++ s := by
  cases b <;> rfl

@[simp] theorem Builder_written_Statement (stmt : gorm.Statement) :
    (clause.Builder.Statement stmt).written = stmt.SQL.written := rfl

@[simp] theorem Statement_written_WriteString (stmt : gorm.Statement) (s : String) :
    (stmt.WriteString s).SQL.written = stmt.SQL.written ++ s := rfl

@[simp] theorem Statement_written_WriteByte (stmt : gorm.Statement) (c : Char) :
    (stmt.WriteByte c).SQL.written = stmt.SQL.written ++ String.singleton c := rfl

@[simp] theorem Statement_written_WriteQuoted (stmt : gorm.Statement) (s : String) :
    (stmt.WriteQuoted s).SQL.written = stmt.SQL.written ++ stmt.Quote s := rfl

@[simp] theorem Statement_Quote_WriteString (stmt : gorm.Statement) (s : String) :
    (stmt.WriteString s).Quote = stmt.Quote := rfl

theorem singleton_space : String.singleton ' ' = " " := rfl

/-- The text the LIMIT builder appends to a statement, for every limit/offset pair:
the ORDER BY part, then the OFFSET part, then the FETCH part. -/
theorem LIMIT_Statement_written (name : String) (limit : clause.Limit)
    (stmt : gorm.Statement) :
    (LIMIT { Name := name, Expression := .Limit limit } (.Statement stmt)).written =
      stmt.SQL.written ++
        ((if stmt.hasClause "ORDER BY" then ""
          else
            match stmt.prioritizedPrimaryField with
            | some pk => "ORDER BY " ++ stmt.Quote pk.DBName ++ " "
            | none => "ORDER BY (SELECT NULL) ") ++
         ((if 0 < limit.Offset then "OFFSET " ++ Itoa limit.Offset ++ " ROWS" else "") ++
          (if 0 < limit.Limit then
            (if limit.Offset = 0 then "OFFSET 0 ROW" else "") ++
              (" FETCH NEXT " ++ Itoa limit.Limit ++ " ROWS ONLY")
           else ""))) := by
  unfold LIMIT
  cases hob : stmt.hasClause "ORDER BY" <;> cases hpk : stmt.prioritizedPrimaryField <;>
    by_cases ho : 0 < limit.Offset <;> by_cases hl : 0 < limit.Limit <;>
    by_cases hz : limit.Offset = 0 <;>
    simp [-String.reduceAppend, hob, hpk, ho, hl, hz, singleton_space, String.append_assoc]

theorem offset_zero_fetch (x : String) :
    "OFFSET 0 ROW" ++ (" FETCH NEXT " ++ x) = "OFFSET 0 ROW FETCH NEXT " ++ x := by
  rw [← String.append_assoc]; rfl

theorem rows_fetch (x : String) :
    " ROWS" ++ (" FETCH NEXT " ++ x) = " ROWS FETCH NEXT " ++ x := by
  rw [← String.append_assoc]; rfl

/-! ## The characters of `Itoa` -/

theorem digitChar_isDigit : ∀ d, d < 10 → (Nat.digitChar d).isDigit = true := by
  decide

theorem toDigitsCore_isDigit (fuel : Nat) :
    ∀ (n : Nat) (acc : List Char), (∀ c ∈ acc, c.isDigit = true) →
      ∀ c ∈ Nat.toDigitsCore 10 fuel n acc, c.isDigit = true := by
  induction fuel with
  | zero => intro n acc hacc c hc; exact hacc c (by simpa [Nat.toDigitsCore] using hc)
  | succ fuel ih =>
    intro n acc hacc c hc
    have hd : (Nat.digitChar (n % 10)).isDigit = true :=
      digitChar_isDigit _ (Nat.mod_lt _ (by decide))
    have hacc2 : ∀ c ∈ Nat.digitChar (n % 10) :: acc, c.isDigit = true := by
      intro c hc
      rcases List.mem_cons.mp hc with h | h
      · rw [h]; exact hd
      · exact hacc c h
    simp only [Nat.toDigitsCore] at hc
    split at hc
    · exact hacc2 c hc
    · exact ih _ _ hacc2 c hc

theorem repr_isDigit (n : Nat) : ∀ c ∈ (Nat.repr n).data, c.isDigit = true := by
  intro c hc
  exact toDigitsCore_isDigit _ n [] (by simp) c (by simpa [Nat.repr, Nat.toDigits] using hc)

/-- `Itoa` writes decimal digits and possibly a minus sign, nothing else. -/
theorem Itoa_chars (i : Int) : ∀ c ∈ (Itoa i).data, c.isDigit = true ∨ c = '-' := by
  intro c hc
  unfold Itoa at hc
  split at hc
  · rw [String.data_append] at hc
    rcases List.mem_append.mp hc with h | h
    · right; simpa using h
    · left; exact repr_isDigit _ c h
  · left; exact repr_isDigit _ c hc

theorem Itoa_no_B (i : Int) : 'B' ∉ (Itoa i).data := by
  intro h
  rcases Itoa_chars i _ h with h | h
  · revert h; decide
  · revert h; decide

/-- The OFFSET/FETCH text of the LIMIT builder holds no letter `B`. -/
theorem pagination_no_B (limit : clause.Limit) :
    'B' ∉ ((if 0 < limit.Offset then "OFFSET " ++ Itoa limit.Offset ++ " ROWS" else "") ++
          (if 0 < limit.Limit then
            (if limit.Offset = 0 then "OFFSET 0 ROW" else "") ++
              (" FETCH NEXT " ++ Itoa limit.Limit ++ " ROWS ONLY")
           else "")).data := by
  have h1 : 'B' ∉ "OFFSET ".data := by decide
  have h2 : 'B' ∉ " ROWS".data := by decide
  have h3 : 'B' ∉ "OFFSET 0 ROW".data := by decide
  have h4 : 'B' ∉ " FETCH NEXT ".data := by decide
  have h5 : 'B' ∉ " ROWS ONLY".data := by decide
  have h6 : 'B' ∉ "".data := by decide
  have ho := Itoa_no_B limit.Offset
  have hl := Itoa_no_B limit.Limit
  by_cases c1 : 0 < limit.Offset <;> by_cases c2 : 0 < limit.Limit <;>
    by_cases c3 : limit.Offset = 0 <;>
    simp only [c1, c2, c3, if_true, if_false, String.data_append, List.mem_append, not_or] <;>
    simp [h1, h2, h3, h4, h5, h6, ho, hl]

theorem no_order_by_of_no_B (s : String) (h : 'B' ∉ s.data) : ¬ ("ORDER BY".data <:+: s.data) :=
  fun hin => h (hin.subset (by decide))

/-! ## Splitting and joining -/

theorem splitChars_ne_nil (sep : Char) (l : List Char) : strings.splitChars sep l ≠ [] := by
  cases l with
  | nil => simp [strings.splitChars]
  | cons c cs =>
    simp only [strings.splitChars]
    split
    · simp
    · split <;> simp

/-- A character list without separator is its own single segment. -/
theorem splitChars_of_not_mem (sep : Char) (l : List Char) (h : sep ∉ l) :
    strings.splitChars sep l = [l] := by
  induction l with
  | nil => rfl
  | cons c cs ih =>
    have hc : c ≠ sep := fun e => h (by simp [e])
    have hcs : sep ∉ cs := fun e => h (List.mem_cons_of_mem _ e)
    simp [strings.splitChars, hc, ih hcs]

/-- No segment holds the separator. -/
theorem splitChars_no_sep (sep : Char) (l : List Char) :
    ∀ seg ∈ strings.splitChars sep l, sep ∉ seg := by
  induction l with
  | nil => simp [strings.splitChars]
  | cons c cs ih =>
    intro seg hseg
    simp only [strings.splitChars] at hseg
    split at hseg
    · rcases List.mem_cons.mp hseg with h | h
      · simp [h]
      · exact ih seg h
    · rename_i hc
      split at hseg
      · simp at hseg
        simp [hseg, Ne.symm hc]
      · rename_i seg0 rest heq
        rcases List.mem_cons.mp hseg with h | h
        · have h0 : sep ∉ seg0 := ih seg0 (by simp [heq])
          simp [h, Ne.symm hc, h0]
        · exact ih seg (by simp [heq, h])

/-- Joining the segments with the separator gives the character list back. -/
theorem intercalate_splitChars (sep : Char) (l : List Char) :
    [sep].intercalate (strings.splitChars sep l) = l := by
  induction l with
  | nil => rfl
  | cons c cs ih =>
    simp only [strings.splitChars]
    split
    · rename_i hc
      have hne := splitChars_ne_nil sep cs
      cases hsp : strings.splitChars sep cs with
      | nil => exact absurd hsp hne
      | cons seg rest =>
        rw [hsp] at ih
        simp [List.intercalate, List.intersperse] at ih ⊢
        exact ⟨hc.symm, ih⟩
    · split
      · rename_i heq
        exact absurd heq (splitChars_ne_nil sep cs)
      · rename_i seg rest heq
        rw [heq] at ih
        cases rest with
        | nil => simp [List.intercalate, List.intersperse] at ih ⊢; exact ih
        | cons r rs => simp [List.intercalate, List.intersperse] at ih ⊢; exact ih

/-- The characters of `String.intercalate`. -/
theorem intercalate_go_data (acc sep : String) (l : List String) :
    (String.intercalate.go acc sep l).data =
      acc.data ++ (l.map fun a => sep.data ++ a.data).flatten := by
  induction l generalizing acc with
  | nil => simp [String.intercalate.go]
  | cons a as ih => simp [String.intercalate.go, ih, String.data_append]

theorem intercalate_data (sep : String) (l : List String) :
    (String.intercalate sep l).data = sep.data.intercalate (l.map String.data) := by
  cases l with
  | nil => rfl
  | cons a as =>
    simp only [String.intercalate, intercalate_go_data]
    induction as generalizing a with
    | nil => simp [List.intercalate, List.intersperse]
    | cons b bs ih =>
      have := ih b
      simp [List.intercalate, List.intersperse] at this ⊢
      exact this

/-! ## The loop of `QuoteTo` -/

@[simp] theorem Writer_written_WriteString (w : clause.Writer) (s : String) :
    (w.WriteString s).written = w.written ++ s := rfl

@[simp] theorem Writer_written_WriteByte (w : clause.Writer) (c : Char) :
    (w.WriteByte c).written = w.written ++ String.singleton c := rfl

/-- After its first round the loop writes `."`, the segment and `"` for every segment. -/
theorem QuoteTo_loop_pos (l : List String) :
    ∀ (w : clause.Writer) (idx : Nat), 0 < idx →
      (QuoteTo.loop w idx l).written.data =
        w.written.data ++ (l.map fun seg => '.' :: '"' :: (seg.data ++ ['"'])).flatten := by
  induction l with
  | nil => intro w idx _; simp [QuoteTo.loop]
  | cons a as ih =>
    intro w idx hidx
    simp [QuoteTo.loop, hidx, ih, String.data_append]

/-- The characters `QuoteTo` writes: the quoted segments, joined by dots. -/
theorem QuoteTo_data (w : clause.Writer) (s : String) :
    (QuoteTo w s).written.data =
      w.written.data ++
        ['.'].intercalate ((strings.splitChars '.' s.data).map fun seg => '"' :: (seg ++ ['"'])) := by
  unfold QuoteTo
  by_cases hdot : strings.Contains s '.' = true
  · simp only [hdot, if_true, strings.Split]
    cases hsp : strings.splitChars '.' s.data with
    | nil => exact absurd hsp (splitChars_ne_nil _ _)
    | cons seg rest =>
      simp only [List.map_cons, QuoteTo.loop, Nat.lt_irrefl, if_false]
      rw [QuoteTo_loop_pos _ _ _ (by decide)]
      simp only [Writer_written_WriteString, Writer_written_WriteByte, String.data_append,
        List.map_map]
      clear hsp
      induction rest generalizing seg with
      | nil => simp [List.intercalate, List.intersperse]
      | cons r rs ih =>
        have := ih r
        simp [List.intercalate, List.intersperse, Function.comp_def] at this ⊢
        exact this
  · have hmem : '.' ∉ s.data := by
      simpa [strings.Contains] using hdot
    simp [hdot, splitChars_of_not_mem _ _ hmem, String.data_append, List.intercalate,
      List.intersperse]

/-! ## Savepoints -/

/-- C1 (the code departs from the claim): on a transaction whose execution layer fails
every statement, the handle that `Exec` returns carries the error, for the statement of
`SavePoint` and for that of `RollbackTo`, and yet both methods return `nil`. -/
theorem SavePoint_RollbackTo_return_nil_on_failure :
    (failingTx.Exec ("SAVE TRANSACTION " ++ "sp1")).Error = some "execution failed" ∧
    (SavePoint failingTx "sp1").2 = none ∧
    (failingTx.Exec ("ROLLBACK TRANSACTION " ++ "sp1")).Error = some "execution failed" ∧
    (RollbackTo failingTx "sp1").2 = none :=
  ⟨rfl, rfl, rfl, rfl⟩

/-! ## The LIMIT clause builder -/

/-- C2: for every limit above zero with offset zero, the LIMIT builder appends exactly
`OFFSET 0 ROW FETCH NEXT <limit> ROWS ONLY` to a statement that has an ORDER BY clause;
to a statement without one it appends `ORDER BY ` with the quoted primary-key column and
a space, or `ORDER BY (SELECT NULL) ` when no prioritized primary field is bound,
followed by that same text. -/
theorem LIMIT_limit_without_offset (name : String) (lim : Int) (hlim : 0 < lim)
    (stmt : gorm.Statement) :
    (stmt.hasClause "ORDER BY" = true →
      (LIMIT { Name := name, Expression := .Limit { Limit := lim, Offset := 0 } }
          (.Statement stmt)).written =
        stmt.SQL.written ++ ("OFFSET 0 ROW FETCH NEXT " ++ Itoa lim ++ " ROWS ONLY")) ∧
    (stmt.hasClause "ORDER BY" = false →
      ∀ pk, stmt.prioritizedPrimaryField = some pk →
      (LIMIT { Name := name, Expression := .Limit { Limit := lim, Offset := 0 } }
          (.Statement stmt)).written =
        stmt.SQL.written ++ ("ORDER BY " ++ stmt.Quote pk.DBName ++ " ") ++
          ("OFFSET 0 ROW FETCH NEXT " ++ Itoa lim ++ " ROWS ONLY")) ∧
    (stmt.hasClause "ORDER BY" = false → stmt.prioritizedPrimaryField = none →
      (LIMIT { Name := name, Expression := .Limit { Limit := lim, Offset := 0 } }
          (.Statement stmt)).written =
        stmt.SQL.written ++ "ORDER BY (SELECT NULL) " ++
          ("OFFSET 0 ROW FETCH NEXT " ++ Itoa lim ++ " ROWS ONLY")) := by
  refine ⟨fun hob => ?_, fun hob pk hpk => ?_, fun hob hpk => ?_⟩
  · rw [LIMIT_Statement_written]
    simp [-String.reduceAppend, hob, hlim, String.append_assoc, offset_zero_fetch]
  · rw [LIMIT_Statement_written]
    simp [-String.reduceAppend, hob, hpk, hlim, String.append_assoc, offset_zero_fetch]
  · rw [LIMIT_Statement_written]
    simp [-String.reduceAppend, hob, hpk, hlim, String.append_assoc, offset_zero_fetch]

/-- C2, on three statements with limit 10: one with an ORDER BY clause, one without it
whose schema has the primary key `id`, one without it and without schema. -/
theorem LIMIT_limit_without_offset_witness :
    (0 : Int) < 10 ∧
    (LIMIT { Name := "LIMIT", Expression := .Limit { Limit := 10, Offset := 0 } }
        (.Statement orderedStmt)).written =
      "SELECT * FROM t ORDER BY name OFFSET 0 ROW FETCH NEXT 10 ROWS ONLY" ∧
    (LIMIT { Name := "LIMIT", Expression := .Limit { Limit := 10, Offset := 0 } }
        (.Statement keyedStmt)).written =
      "SELECT * FROM t ORDER BY \"id\" OFFSET 0 ROW FETCH NEXT 10 ROWS ONLY" ∧
    (LIMIT { Name := "LIMIT", Expression := .Limit { Limit := 10, Offset := 0 } }
        (.Statement bareStmt)).written =
      "SELECT * FROM t ORDER BY (SELECT NULL) OFFSET 0 ROW FETCH NEXT 10 ROWS ONLY" :=
  ⟨by decide,
   (LIMIT_limit_without_offset "LIMIT" 10 (by decide) orderedStmt).1 rfl,
   (LIMIT_limit_without_offset "LIMIT" 10 (by decide) keyedStmt).2.1 rfl idField rfl,
   (LIMIT_limit_without_offset "LIMIT" 10 (by decide) bareStmt).2.2 rfl rfl⟩

/-- C3: for every limit above zero and every offset above zero, the text that the LIMIT
builder appends after the ORDER BY part (empty, `ORDER BY <quoted key> ` or
`ORDER BY (SELECT NULL) `) is exactly `OFFSET <offset> ROWS FETCH NEXT <limit> ROWS ONLY`,
the OFFSET part first. -/
theorem LIMIT_offset_then_fetch (name : String) (lim off : Int) (hlim : 0 < lim)
    (hoff : 0 < off) (stmt : gorm.Statement) :
    (stmt.hasClause "ORDER BY" = true →
      (LIMIT { Name := name, Expression := .Limit { Limit := lim, Offset := off } }
          (.Statement stmt)).written =
        stmt.SQL.written ++
          ("OFFSET " ++ Itoa off ++ " ROWS FETCH NEXT " ++ Itoa lim ++ " ROWS ONLY")) ∧
    (stmt.hasClause "ORDER BY" = false →
      ∀ pk, stmt.prioritizedPrimaryField = some pk →
      (LIMIT { Name := name, Expression := .Limit { Limit := lim, Offset := off } }
          (.Statement stmt)).written =
        stmt.SQL.written ++ ("ORDER BY " ++ stmt.Quote pk.DBName ++ " ") ++
          ("OFFSET " ++ Itoa off ++ " ROWS FETCH NEXT " ++ Itoa lim ++ " ROWS ONLY")) ∧
    (stmt.hasClause "ORDER BY" = false → stmt.prioritizedPrimaryField = none →
      (LIMIT { Name := name, Expression := .Limit { Limit := lim, Offset := off } }
          (.Statement stmt)).written =
        stmt.SQL.written ++ "ORDER BY (SELECT NULL) " ++
          ("OFFSET " ++ Itoa off ++ " ROWS FETCH NEXT " ++ Itoa lim ++ " ROWS ONLY")) := by
  have hne : off ≠ 0 := ne_of_gt hoff
  refine ⟨fun hob => ?_, fun hob pk hpk => ?_, fun hob hpk => ?_⟩
  · rw [LIMIT_Statement_written]
    simp [-String.reduceAppend, hob, hlim, hoff, hne, String.append_assoc, rows_fetch]
  · rw [LIMIT_Statement_written]
    simp [-String.reduceAppend, hob, hpk, hlim, hoff, hne, String.append_assoc, rows_fetch]
  · rw [LIMIT_Statement_written]
    simp [-String.reduceAppend, hob, hpk, hlim, hoff, hne, String.append_assoc, rows_fetch]

/-- C3, with limit 10 and offset 20 on the three example statements. -/
theorem LIMIT_offset_then_fetch_witness :
    (0 : Int) < 10 ∧ (0 : Int) < 20 ∧
    (LIMIT { Name := "LIMIT", Expression := .Limit { Limit := 10, Offset := 20 } }
        (.Statement orderedStmt)).written =
      "SELECT * FROM t ORDER BY name OFFSET 20 ROWS FETCH NEXT 10 ROWS ONLY" ∧
    (LIMIT { Name := "LIMIT", Expression := .Limit { Limit := 10, Offset := 20 } }
        (.Statement keyedStmt)).written =
      "SELECT * FROM t ORDER BY \"id\" OFFSET 20 ROWS FETCH NEXT 10 ROWS ONLY" ∧
    (LIMIT { Name := "LIMIT", Expression := .Limit { Limit := 10, Offset := 20 } }
        (.Statement bareStmt)).written =
      "SELECT * FROM t ORDER BY (SELECT NULL) OFFSET 20 ROWS FETCH NEXT 10 ROWS ONLY" :=
  ⟨by decide, by decide,
   (LIMIT_offset_then_fetch "LIMIT" 10 20 (by decide) (by decide) orderedStmt).1 rfl,
   (LIMIT_offset_then_fetch "LIMIT" 10 20 (by decide) (by decide) keyedStmt).2.1 rfl
     idField rfl,
   (LIMIT_offset_then_fetch "LIMIT" 10 20 (by decide) (by decide) bareStmt).2.2 rfl rfl⟩

/-- C4: for every offset above zero with limit zero, the text that the LIMIT builder
appends after the ORDER BY part is exactly `OFFSET <offset> ROWS`; nothing follows it,
so no FETCH clause is written. -/
theorem LIMIT_offset_without_limit (name : String) (off : Int) (hoff : 0 < off)
    (stmt : gorm.Statement) :
    (stmt.hasClause "ORDER BY" = true →
      (LIMIT { Name := name, Expression := .Limit { Limit := 0, Offset := off } }
          (.Statement stmt)).written =
        stmt.SQL.written ++ ("OFFSET " ++ Itoa off ++ " ROWS")) ∧
    (stmt.hasClause "ORDER BY" = false →
      ∀ pk, stmt.prioritizedPrimaryField = some pk →
      (LIMIT { Name := name, Expression := .Limit { Limit := 0, Offset := off } }
          (.Statement stmt)).written =
        stmt.SQL.written ++ ("ORDER BY " ++ stmt.Quote pk.DBName ++ " ") ++
          ("OFFSET " ++ Itoa off ++ " ROWS")) ∧
    (stmt.hasClause "ORDER BY" = false → stmt.prioritizedPrimaryField = none →
      (LIMIT { Name := name, Expression := .Limit { Limit := 0, Offset := off } }
          (.Statement stmt)).written =
        stmt.SQL.written ++ "ORDER BY (SELECT NULL) " ++
          ("OFFSET " ++ Itoa off ++ " ROWS")) := by
  refine ⟨fun hob => ?_, fun hob pk hpk => ?_, fun hob hpk => ?_⟩
  · rw [LIMIT_Statement_written]
    simp [-String.reduceAppend, hob, hoff, String.append_assoc]
  · rw [LIMIT_Statement_written]
    simp [-String.reduceAppend, hob, hpk, hoff, String.append_assoc]
  · rw [LIMIT_Statement_written]
    simp [-String.reduceAppend, hob, hpk, hoff, String.append_assoc]

/-- C4, with offset 5 on the three example statements. -/
theorem LIMIT_offset_without_limit_witness :
    (0 : Int) < 5 ∧
    (LIMIT { Name := "LIMIT", Expression := .Limit { Limit := 0, Offset := 5 } }
        (.Statement orderedStmt)).written =
      "SELECT * FROM t ORDER BY name OFFSET 5 ROWS" ∧
    (LIMIT { Name := "LIMIT", Expression := .Limit { Limit := 0, Offset := 5 } }
        (.Statement keyedStmt)).written =
      "SELECT * FROM t ORDER BY \"id\" OFFSET 5 ROWS" ∧
    (LIMIT { Name := "LIMIT", Expression := .Limit { Limit := 0, Offset := 5 } }
        (.Statement bareStmt)).written =
      "SELECT * FROM t ORDER BY (SELECT NULL) OFFSET 5 ROWS" :=
  ⟨by decide,
   (LIMIT_offset_without_limit "LIMIT" 5 (by decide) orderedStmt).1 rfl,
   (LIMIT_offset_without_limit "LIMIT" 5 (by decide) keyedStmt).2.1 rfl idField rfl,
   (LIMIT_offset_without_limit "LIMIT" 5 (by decide) bareStmt).2.2 rfl rfl⟩

/-- C5: with limit zero and offset zero the LIMIT builder appends nothing at all to a
statement that has an ORDER BY clause, and to a statement without one exactly the
ORDER BY normalization: `ORDER BY `, the quoted primary-key column and a space, or
`ORDER BY (SELECT NULL) ` when no prioritized primary field is bound. -/
theorem LIMIT_zero_zero (name : String) (stmt : gorm.Statement) :
    (stmt.hasClause "ORDER BY" = true →
      (LIMIT { Name := name, Expression := .Limit { Limit := 0, Offset := 0 } }
          (.Statement stmt)).written = stmt.SQL.written) ∧
    (stmt.hasClause "ORDER BY" = false →
      ∀ pk, stmt.prioritizedPrimaryField = some pk →
      (LIMIT { Name := name, Expression := .Limit { Limit := 0, Offset := 0 } }
          (.Statement stmt)).written =
        stmt.SQL.written ++ ("ORDER BY " ++ stmt.Quote pk.DBName ++ " ")) ∧
    (stmt.hasClause "ORDER BY" = false → stmt.prioritizedPrimaryField = none →
      (LIMIT { Name := name, Expression := .Limit { Limit := 0, Offset := 0 } }
          (.Statement stmt)).written =
        stmt.SQL.written ++ "ORDER BY (SELECT NULL) ") := by
  refine ⟨fun hob => ?_, fun hob pk hpk => ?_, fun hob hpk => ?_⟩
  · rw [LIMIT_Statement_written]
    simp [-String.reduceAppend, hob]
  · rw [LIMIT_Statement_written]
    simp [-String.reduceAppend, hob, hpk, String.append_assoc]
  · rw [LIMIT_Statement_written]
    simp [-String.reduceAppend, hob, hpk]

/-- C5, on the three example statements. -/
theorem LIMIT_zero_zero_witness :
    (LIMIT { Name := "LIMIT", Expression := .Limit { Limit := 0, Offset := 0 } }
        (.Statement orderedStmt)).written = "SELECT * FROM t ORDER BY name " ∧
    (LIMIT { Name := "LIMIT", Expression := .Limit { Limit := 0, Offset := 0 } }
        (.Statement keyedStmt)).written = "SELECT * FROM t ORDER BY \"id\" " ∧
    (LIMIT { Name := "LIMIT", Expression := .Limit { Limit := 0, Offset := 0 } }
        (.Statement bareStmt)).written = "SELECT * FROM t ORDER BY (SELECT NULL) " :=
  ⟨(LIMIT_zero_zero "LIMIT" orderedStmt).1 rfl,
   (LIMIT_zero_zero "LIMIT" keyedStmt).2.1 rfl idField rfl,
   (LIMIT_zero_zero "LIMIT" bareStmt).2.2 rfl rfl⟩

/-- C6: for every limit/offset pair and every statement, what the LIMIT builder appends
is an ORDER BY part followed by a pagination text `pag` in which `ORDER BY` does not
occur.  The ORDER BY part is empty when the statement has an ORDER BY clause; otherwise
it is `ORDER BY `, the quoted prioritized primary-key column and a space when the schema
has such a field, and `ORDER BY (SELECT NULL) ` when it has not. -/
theorem LIMIT_order_by_normalization (name : String) (limit : clause.Limit)
    (stmt : gorm.Statement) :
    ∃ pag : String, ¬ ("ORDER BY".data <:+: pag.data) ∧
      (stmt.hasClause "ORDER BY" = true →
        (LIMIT { Name := name, Expression := .Limit limit } (.Statement stmt)).written =
          stmt.SQL.written ++ pag) ∧
      (stmt.hasClause "ORDER BY" = false →
        ∀ pk, stmt.prioritizedPrimaryField = some pk →
        (LIMIT { Name := name, Expression := .Limit limit } (.Statement stmt)).written =
          stmt.SQL.written ++ ("ORDER BY " ++ stmt.Quote pk.DBName ++ " ") ++ pag) ∧
      (stmt.hasClause "ORDER BY" = false → stmt.prioritizedPrimaryField = none →
        (LIMIT { Name := name, Expression := .Limit limit } (.Statement stmt)).written =
          stmt.SQL.written ++ "ORDER BY (SELECT NULL) " ++ pag) := by
  refine ⟨_, no_order_by_of_no_B _ (pagination_no_B limit), fun hob => ?_,
    fun hob pk hpk => ?_, fun hob hpk => ?_⟩
  · rw [LIMIT_Statement_written]
    simp [-String.reduceAppend, hob]
  · rw [LIMIT_Statement_written]
    simp [-String.reduceAppend, hob, hpk, String.append_assoc]
  · rw [LIMIT_Statement_written]
    simp [-String.reduceAppend, hob, hpk, String.append_assoc]

/-- C6, on the three example statements with limit 10 and offset 5. -/
theorem LIMIT_order_by_normalization_witness :
    (∃ pag : String, ¬ ("ORDER BY".data <:+: pag.data) ∧
      (LIMIT { Name := "LIMIT", Expression := .Limit { Limit := 10, Offset := 5 } }
          (.Statement orderedStmt)).written = "SELECT * FROM t ORDER BY name " ++ pag) ∧
    (∃ pag : String, ¬ ("ORDER BY".data <:+: pag.data) ∧
      (LIMIT { Name := "LIMIT", Expression := .Limit { Limit := 10, Offset := 5 } }
          (.Statement keyedStmt)).written = "SELECT * FROM t " ++ "ORDER BY \"id\" " ++ pag) ∧
    (∃ pag : String, ¬ ("ORDER BY".data <:+: pag.data) ∧
      (LIMIT { Name := "LIMIT", Expression := .Limit { Limit := 10, Offset := 5 } }
          (.Statement bareStmt)).written =
        "SELECT * FROM t " ++ "ORDER BY (SELECT NULL) " ++ pag) :=
  ⟨(LIMIT_order_by_normalization "LIMIT" { Limit := 10, Offset := 5 } orderedStmt).imp
     fun _ h => ⟨h.1, h.2.1 rfl⟩,
   (LIMIT_order_by_normalization "LIMIT" { Limit := 10, Offset := 5 } keyedStmt).imp
     fun _ h => ⟨h.1, h.2.2.1 rfl idField rfl⟩,
   (LIMIT_order_by_normalization "LIMIT" { Limit := 10, Offset := 5 } bareStmt).imp
     fun _ h => ⟨h.1, h.2.2.2 rfl rfl⟩⟩

/-! ## Identifier quoting -/

/-- C7: for every identifier `s`, `QuoteTo` writes the segments of `s` between its dots,
each wrapped in double quotes, joined by unquoted dots, in order.  The segments are
those of `strings.Split`: joined by dots they give `s` back and none holds a dot.  For
an identifier without dot the output is `"`, `s`, `"`. -/
theorem QuoteTo_quotes_segments (writer : clause.Writer) (s : String) :
    (QuoteTo writer s).written =
      writer.written ++
        String.intercalate "." ((strings.Split s '.').map fun seg => "\"" ++ seg ++ "\"") ∧
    String.intercalate "." (strings.Split s '.') = s ∧
    (∀ seg ∈ strings.Split s '.', '.' ∉ seg.data) ∧
    (strings.Contains s '.' = false →
      (QuoteTo writer s).written = writer.written ++ ("\"" ++ s ++ "\"")) := by
  refine ⟨?_, ?_, ?_, ?_⟩
  · apply String.ext
    rw [QuoteTo_data, String.data_append, intercalate_data]
    simp [strings.Split, List.map_map, Function.comp_def, String.data_append]
  · apply String.ext
    rw [intercalate_data]
    simp only [strings.Split, List.map_map]
    have h : (String.data ∘ String.mk) = (id : List Char → List Char) := rfl
    rw [h, List.map_id]
    exact intercalate_splitChars '.' s.data
  · intro seg hseg
    simp only [strings.Split, List.mem_map] at hseg
    obtain ⟨cs, hcs, rfl⟩ := hseg
    exact splitChars_no_sep '.' s.data cs hcs
  · intro hdot
    unfold QuoteTo
    simp [hdot, String.append_assoc]
    rfl

/-- C7, on the identifiers `a.b`, `a` and `a..b` (an empty middle segment), written to
an empty buffer. -/
theorem QuoteTo_quotes_segments_witness :
    (QuoteTo { written := "" } "a.b").written = "\"a\".\"b\"" ∧
    (strings.Contains "a" '.' = false ∧
      (QuoteTo { written := "" } "a").written = "\"a\"") ∧
    (QuoteTo { written := "" } "a..b").written = "\"a\".\"\".\"b\"" :=
  ⟨(QuoteTo_quotes_segments { written := "" } "a.b").1,
   ⟨rfl, (QuoteTo_quotes_segments { written := "" } "a").2.2.2 rfl⟩,
   (QuoteTo_quotes_segments { written := "" } "a..b").1⟩

/-! ## Column types -/

theorem Int_kind_ne : schema.DataType.Int ≠ schema.DataType.Bool := by decide

theorem Uint_kind_ne :
    schema.DataType.Uint ≠ schema.DataType.Bool ∧
      schema.DataType.Uint ≠ schema.DataType.Int := by decide

theorem String_kind_ne :
    schema.DataType.String ≠ schema.DataType.Bool ∧
      schema.DataType.String ≠ schema.DataType.Int ∧
      schema.DataType.String ≠ schema.DataType.Uint ∧
      schema.DataType.String ≠ schema.DataType.Float := by decide

/-- The integer branch of `DataTypeOf` (lines 122-136). -/
theorem DataTypeOf_integer (field : schema.Field)
    (hkind : field.DataType = schema.DataType.Int ∨ field.DataType = schema.DataType.Uint) :
    DataTypeOf field =
      (if field.Size < 16 then "smallint" else if field.Size < 31 then "int" else "bigint") ++
        (if field.AutoIncrement then " IDENTITY(1,1)" else "") := by
  have hb : field.DataType ≠ schema.DataType.Bool := by
    rcases hkind with h | h <;> rw [h]
    · exact Int_kind_ne
    · exact Uint_kind_ne.1
  unfold DataTypeOf
  rw [if_neg hb, if_pos hkind]
  cases field.AutoIncrement <;> simp

/-- C8: for every column descriptor of signed or unsigned integer kind without
auto-increment, `DataTypeOf` returns `smallint` when the size is below 16, `int` when it
is at least 16 and below 31, and `bigint` when it is at least 31. -/
theorem DataTypeOf_integer_sizes (field : schema.Field)
    (hkind : field.DataType = schema.DataType.Int ∨ field.DataType = schema.DataType.Uint)
    (hauto : field.AutoIncrement = false) :
    (field.Size < 16 → DataTypeOf field = "smallint") ∧
    (16 ≤ field.Size → field.Size < 31 → DataTypeOf field = "int") ∧
    (31 ≤ field.Size → DataTypeOf field = "bigint") := by
  rw [DataTypeOf_integer field hkind, hauto]
  refine ⟨fun h => ?_, fun h1 h2 => ?_, fun h => ?_⟩
  · simp [h]
  · have : ¬ field.Size < 16 := by omega
    simp [this, h2]
  · have h1 : ¬ field.Size < 16 := by omega
    have h2 : ¬ field.Size < 31 := by omega
    simp [h1, h2]

/-- C8, at the sizes 1 and 15 (signed), 16 and 30 (unsigned), 31 and 64 (signed). -/
theorem DataTypeOf_integer_sizes_witness :
    (DataTypeOf (plainField schema.DataType.Int 1) = "smallint" ∧
      DataTypeOf (plainField schema.DataType.Int 15) = "smallint") ∧
    (DataTypeOf (plainField schema.DataType.Uint 16) = "int" ∧
      DataTypeOf (plainField schema.DataType.Uint 30) = "int") ∧
    (DataTypeOf (plainField schema.DataType.Int 31) = "bigint" ∧
      DataTypeOf (plainField schema.DataType.Int 64) = "bigint") :=
  ⟨⟨(DataTypeOf_integer_sizes (plainField schema.DataType.Int 1) (Or.inl rfl) rfl).1
      (by decide),
    (DataTypeOf_integer_sizes (plainField schema.DataType.Int 15) (Or.inl rfl) rfl).1
      (by decide)⟩,
   ⟨(DataTypeOf_integer_sizes (plainField schema.DataType.Uint 16) (Or.inr rfl) rfl).2.1
      (by decide) (by decide),
    (DataTypeOf_integer_sizes (plainField schema.DataType.Uint 30) (Or.inr rfl) rfl).2.1
      (by decide) (by decide)⟩,
   ⟨(DataTypeOf_integer_sizes (plainField schema.DataType.Int 31) (Or.inl rfl) rfl).2.2
      (by decide),
    (DataTypeOf_integer_sizes (plainField schema.DataType.Int 64) (Or.inl rfl) rfl).2.2
      (by decide)⟩⟩

/-- C9: for every integer-kind column descriptor with the auto-increment flag set,
whatever its size, `DataTypeOf` returns the type of the same descriptor without the flag
followed by ` IDENTITY(1,1)`; the result ends in `IDENTITY(1,1)`. -/
theorem DataTypeOf_auto_increment (field : schema.Field)
    (hkind : field.DataType = schema.DataType.Int ∨ field.DataType = schema.DataType.Uint)
    (hauto : field.AutoIncrement = true) :
    DataTypeOf field =
      DataTypeOf { field with AutoIncrement := false } ++ " IDENTITY(1,1)" ∧
    "IDENTITY(1,1)".data <:+ (DataTypeOf field).data := by
  have h1 := DataTypeOf_integer field hkind
  have h2 := DataTypeOf_integer { field with AutoIncrement := false } hkind
  rw [hauto] at h1
  simp only [if_true, Bool.false_eq_true, if_false, String.append_empty] at h1 h2
  refine ⟨by rw [h1, h2], ?_⟩
  rw [h1, String.data_append]
  exact List.IsSuffix.trans
    (show "IDENTITY(1,1)".data <:+ " IDENTITY(1,1)".data from ⟨[' '], rfl⟩)
    (List.suffix_append _ _)

/-- C9, on the auto-increment primary key `id` of size 64. -/
theorem DataTypeOf_auto_increment_witness :
    DataTypeOf idField = "bigint IDENTITY(1,1)" ∧
    "IDENTITY(1,1)".data <:+ (DataTypeOf idField).data :=
  ⟨(DataTypeOf_auto_increment idField (Or.inl rfl) rfl).1,
   (DataTypeOf_auto_increment idField (Or.inl rfl) rfl).2⟩

/-- C10: for every string-kind column descriptor of size zero, `DataTypeOf` returns
`nvarchar(256)` when the column is a primary key or has a non-empty `INDEX` or `UNIQUE`
tag setting, and `nvarchar(MAX)` when it is none of these. -/
theorem DataTypeOf_string_size_zero (field : schema.Field)
    (hkind : field.DataType = schema.DataType.String) (hsize : field.Size = 0) :
    (field.PrimaryKey = true ∨ mapIndex field.TagSettings "INDEX" ≠ "" ∨
        mapIndex field.TagSettings "UNIQUE" ≠ "" →
      DataTypeOf field = "nvarchar(256)") ∧
    (field.PrimaryKey = false → mapIndex field.TagSettings "INDEX" = "" →
        mapIndex field.TagSettings "UNIQUE" = "" →
      DataTypeOf field = "nvarchar(MAX)") := by
  have hb := String_kind_ne.1
  have hi := String_kind_ne.2.1
  have hu := String_kind_ne.2.2.1
  have hf := String_kind_ne.2.2.2
  have h256 : "nvarchar(" ++ Itoa 256 ++ ")" = "nvarchar(256)" := by decide
  unfold DataTypeOf
  rw [hkind, if_neg hb, if_neg (by simp [hi, hu]), if_neg hf, if_pos rfl, hsize]
  refine ⟨fun h => ?_, fun hp h1 h2 => ?_⟩
  · rcases h with h | h | h
    · simp [h, h256]
    · simp [h, h256]
    · simp [h, h256]
  · simp [hp, h1, h2]

/-- C10, on string columns of size zero: a primary key, a column tagged `INDEX`, a
column tagged `UNIQUE`, and a column with no flag and no tag. -/
theorem DataTypeOf_string_size_zero_witness :
    DataTypeOf { plainField schema.DataType.String 0 with PrimaryKey := true } =
      "nvarchar(256)" ∧
    DataTypeOf { plainField schema.DataType.String 0 with TagSettings := [("INDEX", "idx_c")] } =
      "nvarchar(256)" ∧
    DataTypeOf { plainField schema.DataType.String 0 with TagSettings := [("UNIQUE", "UNIQUE")] } =
      "nvarchar(256)" ∧
    DataTypeOf (plainField schema.DataType.String 0) = "nvarchar(MAX)" :=
  ⟨(DataTypeOf_string_size_zero
      { plainField schema.DataType.String 0 with PrimaryKey := true } rfl rfl).1
      (Or.inl rfl),
   (DataTypeOf_string_size_zero
      { plainField schema.DataType.String 0 with TagSettings := [("INDEX", "idx_c")] }
      rfl rfl).1 (Or.inr (Or.inl (by decide))),
   (DataTypeOf_string_size_zero
      { plainField schema.DataType.String 0 with TagSettings := [("UNIQUE", "UNIQUE")] }
      rfl rfl).1 (Or.inr (Or.inr (by decide))),
   (DataTypeOf_string_size_zero (plainField schema.DataType.String 0) rfl rfl).2
      rfl rfl rfl⟩

/-- The string branch of `DataTypeOf` (lines 139-148) for a size other than zero: the
key and index flags are not consulted. -/
theorem DataTypeOf_string_nonzero (field : schema.Field)
    (hkind : field.DataType = schema.DataType.String) (hsize : field.Size ≠ 0) :
    DataTypeOf field =
      if 0 < field.Size ∧ field.Size ≤ 4000 then "nvarchar(" ++ Itoa field.Size ++ ")"
      else "nvarchar(MAX)" := by
  have hb := String_kind_ne.1
  have hi := String_kind_ne.2.1
  have hu := String_kind_ne.2.2.1
  have hf := String_kind_ne.2.2.2
  unfold DataTypeOf
  rw [hkind, if_neg hb, if_neg (by simp [hi, hu]), if_neg hf, if_pos rfl]
  simp [hsize]

/-- C11: for every string-kind column descriptor with a size other than zero, whatever
its key and index flags, `DataTypeOf` returns `nvarchar(<size>)` when the size is above
zero and at most 4000, and `nvarchar(MAX)` when the size is above 4000 or below zero. -/
theorem DataTypeOf_string_sized (field : schema.Field)
    (hkind : field.DataType = schema.DataType.String) (hsize : field.Size ≠ 0) :
    (0 < field.Size → field.Size ≤ 4000 →
      DataTypeOf field = "nvarchar(" ++ Itoa field.Size ++ ")") ∧
    (4000 < field.Size ∨ field.Size < 0 → DataTypeOf field = "nvarchar(MAX)") := by
  rw [DataTypeOf_string_nonzero field hkind hsize]
  refine ⟨fun h1 h2 => ?_, fun h => ?_⟩
  · simp [h1, h2]
  · have : ¬ (0 < field.Size ∧ field.Size ≤ 4000) := by omega
    simp [this]

/-- C11, at the sizes 4000 (a plain column, and a primary key tagged `INDEX`), 5000 and
-1. -/
theorem DataTypeOf_string_sized_witness :
    DataTypeOf (plainField schema.DataType.String 4000) = "nvarchar(4000)" ∧
    DataTypeOf { plainField schema.DataType.String 4000 with
        PrimaryKey := true, TagSettings := [("INDEX", "idx_c")] } = "nvarchar(4000)" ∧
    DataTypeOf (plainField schema.DataType.String 5000) = "nvarchar(MAX)" ∧
    DataTypeOf (plainField schema.DataType.String (-1)) = "nvarchar(MAX)" :=
  ⟨(DataTypeOf_string_sized (plainField schema.DataType.String 4000) rfl (by decide)).1
      (by decide) (by decide),
   (DataTypeOf_string_sized
      { plainField schema.DataType.String 4000 with
        PrimaryKey := true, TagSettings := [("INDEX", "idx_c")] } rfl (by decide)).1
      (by decide) (by decide),
   (DataTypeOf_string_sized (plainField schema.DataType.String 5000) rfl (by decide)).2
      (Or.inl (by decide)),
   (DataTypeOf_string_sized (plainField schema.DataType.String (-1)) rfl (by decide)).2
      (Or.inr (by decide))⟩

/-- C12: `DataTypeOf` yields a type string for every column descriptor, and for a
descriptor whose kind is none of boolean, signed integer, unsigned integer, float,
string, timestamp and bytes that string is the kind name itself, whatever the size and
the flags are. -/
theorem DataTypeOf_other_kind (field : schema.Field) :
    (∃ t : String, DataTypeOf field = t) ∧
    (field.DataType ≠ schema.DataType.Bool → field.DataType ≠ schema.DataType.Int →
      field.DataType ≠ schema.DataType.Uint → field.DataType ≠ schema.DataType.Float →
      field.DataType ≠ schema.DataType.String → field.DataType ≠ schema.DataType.Time →
      field.DataType ≠ schema.DataType.Bytes →
      DataTypeOf field = field.DataType) := by
  refine ⟨⟨_, rfl⟩, fun hb hi hu hf hs ht hy => ?_⟩
  unfold DataTypeOf
  rw [if_neg hb, if_neg (by simp [hi, hu]), if_neg hf, if_neg hs, if_neg ht, if_neg hy]

/-- C12, on a `json` column of size 7 that is an auto-increment primary key with an
`INDEX` tag, and on a column whose kind name is `geography`. -/
theorem DataTypeOf_other_kind_witness :
    DataTypeOf jsonField = "json" ∧
    DataTypeOf (plainField "geography" 0) = "geography" :=
  ⟨(DataTypeOf_other_kind jsonField).2
      (by decide) (by decide) (by decide) (by decide) (by decide) (by decide) (by decide),
   (DataTypeOf_other_kind (plainField "geography" 0)).2
      (by decide) (by decide) (by decide) (by decide) (by decide) (by decide) (by decide)⟩

theorem Float_kind_ne :
    schema.DataType.Float ≠ schema.DataType.Bool ∧
      schema.DataType.Float ≠ schema.DataType.Int ∧
      schema.DataType.Float ≠ schema.DataType.Uint := by decide

theorem Time_kind_ne :
    schema.DataType.Time ≠ schema.DataType.Bool ∧
      schema.DataType.Time ≠ schema.DataType.Int ∧
      schema.DataType.Time ≠ schema.DataType.Uint ∧
      schema.DataType.Time ≠ schema.DataType.Float ∧
      schema.DataType.Time ≠ schema.DataType.String := by decide

theorem Bytes_kind_ne :
    schema.DataType.Bytes ≠ schema.DataType.Bool ∧
      schema.DataType.Bytes ≠ schema.DataType.Int ∧
      schema.DataType.Bytes ≠ schema.DataType.Uint ∧
      schema.DataType.Bytes ≠ schema.DataType.Float ∧
      schema.DataType.Bytes ≠ schema.DataType.String ∧
      schema.DataType.Bytes ≠ schema.DataType.Time := by decide

/-- C13: for every column descriptor, whatever its size, flags and tag settings,
`DataTypeOf` returns `bit` for the boolean kind, `float` for the floating-point kind,
`datetimeoffset` for the timestamp kind and `varbinary(MAX)` for the byte-blob kind. -/
theorem DataTypeOf_fixed_kinds (field : schema.Field) :
    (field.DataType = schema.DataType.Bool → DataTypeOf field = "bit") ∧
    (field.DataType = schema.DataType.Float → DataTypeOf field = "float") ∧
    (field.DataType = schema.DataType.Time → DataTypeOf field = "datetimeoffset") ∧
    (field.DataType = schema.DataType.Bytes → DataTypeOf field = "varbinary(MAX)") := by
  refine ⟨fun h => ?_, fun h => ?_, fun h => ?_, fun h => ?_⟩
  · unfold DataTypeOf
    rw [if_pos h]
  · obtain ⟨hb, hi, hu⟩ := Float_kind_ne
    unfold DataTypeOf
    rw [h, if_neg hb, if_neg (by simp [hi, hu]), if_pos rfl]
  · obtain ⟨hb, hi, hu, hf, hs⟩ := Time_kind_ne
    unfold DataTypeOf
    rw [h, if_neg hb, if_neg (by simp [hi, hu]), if_neg hf, if_neg hs, if_pos rfl]
  · obtain ⟨hb, hi, hu, hf, hs, ht⟩ := Bytes_kind_ne
    unfold DataTypeOf
    rw [h, if_neg hb, if_neg (by simp [hi, hu]), if_neg hf, if_neg hs, if_neg ht,
      if_pos rfl]

/-- C13, on descriptors of the four kinds with sizes, flags and tags set. -/
theorem DataTypeOf_fixed_kinds_witness :
    DataTypeOf { plainField schema.DataType.Bool 64 with AutoIncrement := true } = "bit" ∧
    DataTypeOf { plainField schema.DataType.Float 32 with PrimaryKey := true } = "float" ∧
    DataTypeOf { plainField schema.DataType.Time 0 with
        TagSettings := [("INDEX", "idx_c")] } = "datetimeoffset" ∧
    DataTypeOf { plainField schema.DataType.Bytes 100 with
        TagSettings := [("UNIQUE", "UNIQUE")] } = "varbinary(MAX)" :=
  ⟨(DataTypeOf_fixed_kinds
      { plainField schema.DataType.Bool 64 with AutoIncrement := true }).1 rfl,
   (DataTypeOf_fixed_kinds
      { plainField schema.DataType.Float 32 with PrimaryKey := true }).2.1 rfl,
   (DataTypeOf_fixed_kinds
      { plainField schema.DataType.Time 0 with
        TagSettings := [("INDEX", "idx_c")] }).2.2.1 rfl,
   (DataTypeOf_fixed_kinds
      { plainField schema.DataType.Bytes 100 with
        TagSettings := [("UNIQUE", "UNIQUE")] }).2.2.2 rfl⟩

/-! ## Bind variables -/

/-- C14: for every statement context, whatever values are bound already, and every
bound value, `BindVarTo` appends the single character `?` to the buffer and nothing
else. -/
theorem BindVarTo_writes_question_mark {α : Type} (writer : clause.Writer)
    (stmt : gorm.Statement) (v : α) :
    (BindVarTo writer stmt v).written = writer.written ++ "?" ∧
      (BindVarTo writer stmt v).written.data = writer.written.data ++ ['?'] := by
  unfold BindVarTo
  exact ⟨rfl, by rw [Writer_written_WriteString, String.data_append]⟩

/-! ## Savepoint followed by rollback -/

/-- C15: for every name and every transaction handle, `SavePoint` followed by
`RollbackTo` with the same name hands exactly two statements to the execution layer,
after those it had received before: `SAVE TRANSACTION ` and the name, then
`ROLLBACK TRANSACTION ` and the name, the name being neither quoted nor escaped. -/
theorem SavePoint_then_RollbackTo (tx : gorm.DB) (name : String) :
    (RollbackTo (SavePoint tx name).1 name).1.Executed =
      tx.Executed ++ ["SAVE TRANSACTION " ++ name, "ROLLBACK TRANSACTION " ++ name] := by
  simp [SavePoint, RollbackTo, gorm.DB.Exec]

/-! ## The LIMIT clause builder on other inputs -/

/-- C19: for every clause whose expression is not a limit/offset expression and every
builder, the LIMIT builder returns the builder as it was: nothing is written. -/
theorem LIMIT_other_expression (c : clause.Clause) (builder : clause.Builder)
    (h : ∀ limit, c.Expression ≠ .Limit limit) :
    LIMIT c builder = builder ∧ (LIMIT c builder).written = builder.written := by
  have h1 : LIMIT c builder = builder := by
    unfold LIMIT
    cases hc : c.Expression with
    | Limit limit => exact absurd hc (h limit)
    | Expr sql => rfl
    | nil => rfl
  exact ⟨h1, by rw [h1]⟩

/-- C19, on a WHERE clause handed to the LIMIT builder with a statement without
ORDER BY clause. -/
theorem LIMIT_other_expression_witness :
    (∀ limit, whereClause.Expression ≠ .Limit limit) ∧
    (LIMIT whereClause (.Statement keyedStmt)).written = "SELECT * FROM t " :=
  ⟨fun _ h => clause.Expression.noConfusion h,
   (LIMIT_other_expression whereClause (.Statement keyedStmt)
      (fun _ h => clause.Expression.noConfusion h)).2⟩

/-- For every limit above zero and every offset that is not negative, the text that the
LIMIT builder appends holds `OFFSET` before ` FETCH NEXT`. -/
theorem LIMIT_offset_before_fetch (name : String) (lim off : Int) (hlim : 0 < lim)
    (hoff : 0 ≤ off) (stmt : gorm.Statement) :
    ∃ a b c : String,
      (LIMIT { Name := name, Expression := .Limit { Limit := lim, Offset := off } }
          (.Statement stmt)).written =
        stmt.SQL.written ++ (a ++ "OFFSET" ++ b ++ " FETCH NEXT" ++ c) := by
  rw [LIMIT_Statement_written]
  have e0 : "OFFSET 0 ROW" = "OFFSET" ++ " 0 ROW" := by decide
  have e1 : "OFFSET " = "OFFSET" ++ " " := by decide
  have e2 : " FETCH NEXT " = " FETCH NEXT" ++ " " := by decide
  rcases eq_or_lt_of_le hoff with h0 | hpos
  · refine ⟨if stmt.hasClause "ORDER BY" then ""
        else
          match stmt.prioritizedPrimaryField with
          | some pk => "ORDER BY " ++ stmt.Quote pk.DBName ++ " "
          | none => "ORDER BY (SELECT NULL) ",
      " 0 ROW", " " ++ Itoa lim ++ " ROWS ONLY", ?_⟩
    simp only [← h0, lt_irrefl, hlim, if_true, if_false, String.empty_append]
    rw [e0, e2]
    simp only [String.append_assoc]
  · refine ⟨if stmt.hasClause "ORDER BY" then ""
        else
          match stmt.prioritizedPrimaryField with
          | some pk => "ORDER BY " ++ stmt.Quote pk.DBName ++ " "
          | none => "ORDER BY (SELECT NULL) ",
      " " ++ Itoa off ++ " ROWS", " " ++ Itoa lim ++ " ROWS ONLY", ?_⟩
    simp only [hpos, hlim, ne_of_gt hpos, if_true, if_false, String.empty_append]
    rw [e1, e2]
    simp only [String.append_assoc]

/-- C16 (the code departs from the claim): with limit 10 and offset -1 on a statement
that has an ORDER BY clause, the LIMIT builder appends ` FETCH NEXT 10 ROWS ONLY` and
nothing else; there is no `OFFSET` in that text. -/
theorem LIMIT_negative_offset_writes_no_OFFSET :
    (LIMIT negativeOffsetClause (.Statement orderedStmt)).written =
      orderedStmt.SQL.written ++ " FETCH NEXT 10 ROWS ONLY" ∧
    ¬ ("OFFSET".data <:+: " FETCH NEXT 10 ROWS ONLY".data) := by
  refine ⟨by decide, ?_⟩
  intro h
  have hle := h.sublist.count_le 'F'
  revert hle
  decide

/-! ## Quoting, character by character -/

theorem intercalate_cons_cons (a b : List Char) (r : List (List Char)) :
    ['.'].intercalate (a :: b :: r) = a ++ '.' :: ['.'].intercalate (b :: r) := by
  simp [List.intercalate, List.intersperse]

theorem intercalate_single (a : List Char) : ['.'].intercalate [a] = a := by
  simp [List.intercalate, List.intersperse]

/-- The quoted segments joined by dots are the opening quote, `quoteDots` of the
characters and the closing quote. -/
theorem intercalate_quoted_eq_quoteDots (l : List Char) :
    ['.'].intercalate ((strings.splitChars '.' l).map fun seg => '"' :: (seg ++ ['"'])) =
      '"' :: (quoteDots l ++ ['"']) := by
  induction l with
  | nil => rfl
  | cons c cs ih =>
    cases hsp : strings.splitChars '.' cs with
    | nil => exact absurd hsp (splitChars_ne_nil _ _)
    | cons seg rest =>
      rw [hsp] at ih
      by_cases hc : c = '.'
      · simp only [strings.splitChars, hc, if_true, hsp, List.map_cons, quoteDots] at ih ⊢
        rw [intercalate_cons_cons, ih]
        simp
      · simp only [strings.splitChars, hc, if_false, hsp, List.map_cons, quoteDots] at ih ⊢
        cases rest with
        | nil =>
          simp only [List.map_nil, intercalate_single] at ih ⊢
          simp only [List.cons.injEq, true_and] at ih
          simp [ih]
        | cons r rs =>
          simp only [List.map_cons, intercalate_cons_cons] at ih ⊢
          simp only [List.cons_append, List.cons.injEq, true_and] at ih
          simp only [List.cons_append, List.cons.injEq, true_and]
          exact ih

/-- The characters `QuoteTo` writes, read off the identifier character by character. -/
theorem QuoteTo_data_quoteDots (w : clause.Writer) (s : String) :
    (QuoteTo w s).written.data = w.written.data ++ '"' :: (quoteDots s.data ++ ['"']) := by
  rw [QuoteTo_data, intercalate_quoted_eq_quoteDots]

theorem quoteDots_sublist (l : List Char) : l.Sublist (quoteDots l) := by
  induction l with
  | nil => exact List.Sublist.slnil
  | cons c cs ih =>
    by_cases hc : c = '.'
    · simp only [quoteDots, hc, if_true]
      exact List.Sublist.cons _ (List.Sublist.cons₂ _ (List.Sublist.cons _ ih))
    · simp only [quoteDots, hc, if_false]
      exact List.Sublist.cons₂ _ ih

theorem quoteDots_length (l : List Char) :
    (quoteDots l).length = l.length + 2 * l.count '.' := by
  induction l with
  | nil => rfl
  | cons c cs ih =>
    by_cases hc : c = '.'
    · simp only [quoteDots, hc, if_true, List.length_cons, ih, List.count_cons_self]
      omega
    · simp only [quoteDots, hc, if_false, List.length_cons, ih]
      rw [List.count_cons_of_ne (fun h => hc h.symm)]
      omega

theorem quoteDots_count_quote (l : List Char) :
    (quoteDots l).count '"' = l.count '"' + 2 * l.count '.' := by
  induction l with
  | nil => rfl
  | cons c cs ih =>
    by_cases hc : c = '.'
    · subst hc
      have h1 : ('.' :: cs).count '"' = cs.count '"' :=
        List.count_cons_of_ne (by decide) _
      have h2 : ('"' :: '.' :: '"' :: quoteDots cs).count '"' = (quoteDots cs).count '"' + 2 := by
        rw [List.count_cons_self, List.count_cons_of_ne (by decide), List.count_cons_self]
      simp only [quoteDots, if_true, h1, h2, ih, List.count_cons_self]
      omega
    · simp only [quoteDots, hc, if_false]
      rw [List.count_cons_of_ne (a := '.') (fun h => hc h.symm)]
      by_cases hq : c = '"'
      · subst hq
        simp only [List.count_cons_self, ih]
        omega
      · rw [List.count_cons_of_ne (fun h => hq h.symm),
          List.count_cons_of_ne (fun h => hq h.symm), ih]

/-- The expansion of an identifier never starts with a dot. -/
theorem quoteDots_ne_dot_cons (l rest : List Char) : quoteDots l ≠ '.' :: rest := by
  cases l with
  | nil => simp [quoteDots]
  | cons c cs =>
    by_cases hc : c = '.'
    · simp [quoteDots, hc]
    · simp [quoteDots, hc]

/-- Two identifiers with the same expansion are equal. -/
theorem quoteDots_injective (l : List Char) :
    ∀ m : List Char, quoteDots l = quoteDots m → l = m := by
  induction l with
  | nil =>
    intro m h
    cases m with
    | nil => rfl
    | cons d ds =>
      by_cases hd : d = '.' <;> simp [quoteDots, hd] at h
  | cons c cs ih =>
    intro m h
    cases m with
    | nil =>
      by_cases hc : c = '.' <;> simp [quoteDots, hc] at h
    | cons d ds =>
      by_cases hc : c = '.' <;> by_cases hd : d = '.'
      · simp only [quoteDots, hc, hd, if_true, List.cons.injEq, true_and] at h
        rw [hc, hd, ih ds h]
      · simp only [quoteDots, hc, hd, if_true, if_false, List.cons.injEq] at h
        exact absurd h.2.symm (quoteDots_ne_dot_cons ds _)
      · simp only [quoteDots, hc, hd, if_true, if_false, List.cons.injEq] at h
        exact absurd h.2 (quoteDots_ne_dot_cons cs _)
      · simp only [quoteDots, hc, hd, if_false, List.cons.injEq] at h
        rw [h.1, ih ds h.2]

/-- C17: `QuoteTo` does not escape: for every identifier `s`, the text `out` it appends
holds the characters of `s` unchanged and in order, its number of double quotes is that
of `s` plus 2 x (number of dots of `s` + 1), and it is longer than `s` by just as many
characters, so the added quotes are all that is added. -/
theorem QuoteTo_copies_characters (writer : clause.Writer) (s : String) :
    ∃ out : String, (QuoteTo writer s).written = writer.written ++ out ∧
      s.data.Sublist out.data ∧
      out.data.count '"' = s.data.count '"' + 2 * (s.data.count '.' + 1) ∧
      out.data.length = s.data.length + 2 * (s.data.count '.' + 1) := by
  refine ⟨String.mk ('"' :: (quoteDots s.data ++ ['"'])), ?_, ?_, ?_, ?_⟩
  · apply String.ext
    rw [QuoteTo_data_quoteDots, String.data_append]
  · exact List.Sublist.cons _
      ((quoteDots_sublist s.data).trans (List.sublist_append_left _ _))
  · show ('"' :: (quoteDots s.data ++ ['"'])).count '"' = _
    rw [List.count_cons_self, List.count_append, quoteDots_count_quote]
    have : ['"'].count '"' = 1 := by decide
    omega
  · show ('"' :: (quoteDots s.data ++ ['"'])).length = _
    rw [List.length_cons, List.length_append, quoteDots_length]
    simp only [List.length_singleton]
    omega

/-- An identifier with a double quote inside: the quote is written as it is. -/
theorem QuoteTo_embedded_quote :
    (QuoteTo { written := "" } "a\"b").written = "\"a\"b\"" ∧
    (QuoteTo { written := "" } "a\".\"b").written = "\"a\"\".\"\"b\"" := by
  decide

/-- C18: `QuoteTo` is injective: for all identifiers `s` and `t`, with dots, empty
segments or double quotes inside or not, if `QuoteTo` leaves the same text in the same
buffer for `s` and for `t` then `s = t`. -/
theorem QuoteTo_injective (writer : clause.Writer) (s t : String)
    (h : (QuoteTo writer s).written = (QuoteTo writer t).written) : s = t := by
  have hd := congrArg String.data h
  rw [QuoteTo_data_quoteDots, QuoteTo_data_quoteDots] at hd
  have h1 := List.append_cancel_left hd
  simp only [List.cons.injEq, true_and] at h1
  have h2 := List.append_cancel_right h1
  exact String.ext (quoteDots_injective _ _ h2)

/-- C18, on the identifier `a."b` given twice: the outputs agree and so do the
identifiers. -/
theorem QuoteTo_injective_witness :
    (QuoteTo { written := "x " } "a.\"b").written =
      (QuoteTo { written := "x " } "a.\"b").written ∧
    "a.\"b" = "a.\"b" :=
  ⟨rfl, QuoteTo_injective { written := "x " } "a.\"b" "a.\"b" rfl⟩

end Sqlserver
